import Mathlib

/-!
A shallow embedding of the extraction-classification-aggregation core of
src/url_extractor_program.py (class URLExtractor).

Content strings are modelled as List Char. The three reference-syntax
regular expressions share one attribute-matching shell
  (?:href|src)\s*=\s*['"]\s*( PREFIX RUN )['"]     (IGNORECASE)
where PREFIX is (?:https?|ftp):// or // or /, and RUN is [^'"\s>]+ .
Because RUN excludes quote characters, the Python backtracking engine has
exactly one possible match at a given start position, so the shell is
embedded as a deterministic function; finditer is the usual non-overlapping
left-to-right scan. Case folding and the \s class are modelled over ASCII
(the patterns themselves are ASCII; exotic Unicode case folds and Unicode
whitespace are out of scope of the embedding). The extension patterns
  \.(e1|e2|...)(?:\?.*)?$      (IGNORECASE)
are embedded by a scan over every position, where after the extension the
rest of the string must be empty, a lone newline, or a query part
introduced by ? whose body has no newline except possibly a final one
(Python . does not match newline, and $ also matches just before a final
newline).
-/

/-- Python \s over ASCII: space, tab, newline, carriage return,
vertical tab, form feed. -/
def isSpaceChar (c : Char) : Bool :=
  c = ' ' || c = '\t' || c = '\n' || c = '\r' || c = '\x0b' || c = '\x0c'

/-- The quote characters accepted by the patterns. -/
def isQuote (c : Char) : Bool :=
  c = '\'' || c = '"'

/-- A character allowed inside the captured reference content: the
character class [^'"\s>] of all three reference-syntax patterns. -/
def isRunChar (c : Char) : Bool :=
  !(c = '\'' || c = '"' || c = '>' || isSpaceChar c)

/-- Consume a literal case-insensitively (the literal is given in lower
case); return the remaining input, or none when the input does not start
with the literal. -/
def stripCI : List Char → List Char → Option (List Char)
  | [], l => some l
  | _ :: _, [] => none
  | c :: cs, r :: rs => if r.toLower = c then stripCI cs rs else none

/-- Consume a literal case-insensitively, returning the consumed input
characters as written (regex captures preserve the source text) together
with the remaining input. -/
def stripCIK : List Char → List Char → Option (List Char × List Char)
  | [], l => some ([], l)
  | _ :: _, [] => none
  | c :: cs, r :: rs =>
    if r.toLower = c then
      match stripCIK cs rs with
      | some (k, rest) => some (r :: k, rest)
      | none => none
    else none

/-- The \s* steps of the patterns: drop leading whitespace. -/
def dropWs (l : List Char) : List Char := l.dropWhile isSpaceChar

/-- Expect a literal = sign. -/
def expectEq : List Char → Option (List Char)
  | c :: r => if c = '=' then some r else none
  | [] => none

/-- Expect a single or double quote, as in the character class ['"] used
for both the opening and the closing quote of the patterns. -/
def expectQuote : List Char → Option (List Char)
  | c :: r => if isQuote c then some r else none
  | [] => none

def hrefChars : List Char := "href".data

def srcChars : List Char := "src".data

def httpChars : List Char := "http".data

def ftpChars : List Char := "ftp".data

def sepChars : List Char := "://".data

/-- The (?:href|src) alternation, case-insensitive. The two alternatives
start with different letters, so at most one applies at a position. -/
def matchAttrName (l : List Char) : Option (List Char) :=
  match stripCI hrefChars l with
  | some rest => some rest
  | none => stripCI srcChars l

/-- The (?:https?|ftp):// prefix of self.url_with_protocol. The optional
s is greedy; when the following :// fails after consuming the s the
backtracked alternative necessarily fails as well, so the function
commits to the s whenever it is present. -/
def matchScheme (l : List Char) : Option (List Char × List Char) :=
  match stripCIK httpChars l with
  | some (k, rest) =>
    match rest with
    | c :: rest2 =>
      if c.toLower = 's' then
        match stripCIK sepChars rest2 with
        | some (k2, rest3) => some (k ++ c :: k2, rest3)
        | none => none
      else
        match stripCIK sepChars rest with
        | some (k2, rest3) => some (k ++ k2, rest3)
        | none => none
    | [] => none
  | none =>
    match stripCIK ftpChars l with
    | some (k, rest) =>
      match stripCIK sepChars rest with
      | some (k2, rest3) => some (k ++ k2, rest3)
      | none => none
    | none => none

/-- The // prefix of self.protocol_relative. -/
def matchRel (l : List Char) : Option (List Char × List Char) :=
  stripCIK "//".data l

/-- The / prefix of self.absolute_path. -/
def matchSlash (l : List Char) : Option (List Char × List Char) :=
  stripCIK "/".data l

/-- One attempt of the shared attribute shell at the start of the input:
attribute name, \s*, =, \s*, opening quote, \s*, the prefix given by
pfx, a nonempty run of [^'"\s>] characters, and a closing quote. Returns
the capture (group 1: prefix plus run) and the input remaining after the
closing quote. -/
def matchShellAt (pfx : List Char → Option (List Char × List Char))
    (l : List Char) : Option (List Char × List Char) :=
  (matchAttrName l).bind fun r1 =>
  (expectEq (dropWs r1)).bind fun r2 =>
  (expectQuote (dropWs r2)).bind fun r3 =>
  (pfx (dropWs r3)).bind fun p =>
  let run := p.2.takeWhile isRunChar
  let r6 := p.2.dropWhile isRunChar
  if run.isEmpty then none
  else (expectQuote r6).bind fun r7 => some (p.1 ++ run, r7)

/-- re.finditer: scan left to right, trying a match at every position;
on success emit the capture and resume after the match. The fuel starts
at the length of the input; every successful shell match consumes at
least the closing quote, so the fuel never runs out before the input
does (finditerAux_fuel below makes this formal). -/
def finditerAux (m : List Char → Option (List Char × List Char)) :
    Nat → List Char → List (List Char)
  | 0, _ => []
  | _ + 1, [] => []
  | fuel + 1, c :: rest =>
    match m (c :: rest) with
    | some (cap, after) => cap :: finditerAux m fuel after
    | none => finditerAux m fuel rest

def finditer (m : List Char → Option (List Char × List Char))
    (l : List Char) : List (List Char) :=
  finditerAux m l.length l

/-- self.image_extensions alternatives. -/
def image_extensions : List (List Char) :=
  ["jpg", "jpeg", "png", "gif", "bmp", "svg", "webp", "ico"].map String.data

/-- self.video_extensions alternatives. -/
def video_extensions : List (List Char) :=
  ["mp4", "avi", "mov", "wmv", "flv", "webm", "mkv"].map String.data

/-- self.audio_extensions alternatives. -/
def audio_extensions : List (List Char) :=
  ["mp3", "wav", "ogg", "flac", "aac", "m4a"].map String.data

/-- self.document_extensions alternatives. -/
def document_extensions : List (List Char) :=
  ["pdf", "doc", "docx", "xls", "xlsx", "ppt", "pptx", "txt", "csv"].map String.data

/-- self.script_extensions alternatives. -/
def script_extensions : List (List Char) :=
  ["js", "css"].map String.data

/-- self.archive_extensions alternatives. -/
def archive_extensions : List (List Char) :=
  ["zip", "rar", "tar", "gz", "7z"].map String.data

def noNL (l : List Char) : Bool := l.all (fun c => c != '\n')

/-- What may follow the matched extension under (?:\?.*)?$ : end of
string, a final newline, or a ? query whose body contains no newline
except possibly a final one. -/
def queryEndOK : List Char → Bool
  | [] => true
  | ['\n'] => true
  | '?' :: q =>
    (match q.reverse with
     | '\n' :: r => noNL r
     | _ => noNL q)
  | _ => false

/-- One extension alternative tried right after a dot. -/
def extHere (e : List Char) (l : List Char) : Bool :=
  match stripCI e l with
  | some rest => queryEndOK rest
  | none => false

/-- re.search of an extension pattern \.(e1|...)(?:\?.*)?$ : some
position holds a dot followed by one of the alternatives and a valid
tail. -/
def extMatchAt (exts : List (List Char)) : List Char → Bool
  | [] => false
  | c :: rest => ((c == '.') && exts.any (fun e => extHere e rest)) || extMatchAt exts rest

/-- re.search(r'#', url). -/
def hasHash (l : List Char) : Bool := l.any (fun c => c == '#')

/-- re.search of a literal, case-insensitive: the literal occurs at some
position. -/
def containsCI (pat : List Char) : List Char → Bool
  | [] => (stripCI pat []).isSome
  | c :: rest => (stripCI pat (c :: rest)).isSome || containsCI pat rest

def mailtoChars : List Char := "mailto:".data

def telChars : List Char := "tel:".data

/-- URLExtractor.categorize_url: extension checks in the fixed order
Image, Video, Audio, Document, Script/Style, Archive, then the special
checks for #, mailto: and tel:, then the Webpage fallback. -/
def categorize_url (url : List Char) : String :=
  if extMatchAt image_extensions url then "Image"
  else if extMatchAt video_extensions url then "Video"
  else if extMatchAt audio_extensions url then "Audio"
  else if extMatchAt document_extensions url then "Document"
  else if extMatchAt script_extensions url then "Script/Style"
  else if extMatchAt archive_extensions url then "Archive"
  else if hasHash url then "Anchor Link"
  else if containsCI mailtoChars url then "Email Link"
  else if containsCI telChars url then "Phone Link"
  else "Webpage"

/-- One extracted tuple (url, url_type, category). -/
abbrev Entry := List Char × String × String

/-- The matches of self.url_with_protocol over the content. -/
def url_with_protocol_matches (content : List Char) : List (List Char) :=
  finditer (matchShellAt matchScheme) content

/-- The matches of self.protocol_relative over the content. -/
def protocol_relative_matches (content : List Char) : List (List Char) :=
  finditer (matchShellAt matchRel) content

/-- The matches of self.absolute_path over the content. -/
def absolute_path_matches (content : List Char) : List (List Char) :=
  finditer (matchShellAt matchSlash) content

/-- Case-sensitive list prefix test, for str.startswith. -/
def startsWithList : List Char → List Char → Bool
  | [], _ => true
  | _ :: _, [] => false
  | c :: cs, r :: rs => c = r && startsWithList cs rs

/-- url.startswith(('http://', 'https://', 'ftp://', '//')) used as the
guard of the absolute-path pass. -/
def schemeOrRel (u : List Char) : Bool :=
  startsWithList "http://".data u || startsWithList "https://".data u ||
  startsWithList "ftp://".data u || startsWithList "//".data u

/-- The extracted_urls list built by the three loops of
URLExtractor.extract_urls before deduplication: the complete-URL pass,
then the protocol-relative pass, then the absolute-path pass with its
startswith guard. -/
def allMatches (content : List Char) : List Entry :=
  (url_with_protocol_matches content).map
    (fun u => (u, "Complete URL", categorize_url u))
  ++ (protocol_relative_matches content).map
    (fun u => (u, "Protocol-Relative", categorize_url u))
  ++ ((absolute_path_matches content).filter (fun u => !(schemeOrRel u))).map
    (fun u => (u, "Absolute Path", categorize_url u))

/-- The deduplication loop of URLExtractor.extract_urls: keep a tuple
only when its url (first component) has not been seen before. -/
def dedupKeep : List (List Char) → List Entry → List Entry
  | _, [] => []
  | seen, t :: rest =>
    if t.1 ∈ seen then dedupKeep seen rest
    else t :: dedupKeep (t.1 :: seen) rest

/-- URLExtractor.extract_urls. -/
def extract_urls (content : List Char) : List Entry :=
  dedupKeep [] (allMatches content)

/-- The first tuple of a list whose url equals the given key. -/
def firstWith : List Entry → List Char → Option Entry
  | [], _ => none
  | t :: rest, k => if t.1 = k then some t else firstWith rest k

/-- The per-source result dictionary of URLExtractor.process_source. -/
structure SourceResult where
  filename : String
  total_urls : Nat
  urls : List Entry
  category_counts : List (String × Nat)
  error : Option String
deriving DecidableEq

/-- category_counts[category] = category_counts.get(category, 0) + 1 on
an insertion-ordered association list (a Python dict). -/
def bumpCount : List (String × Nat) → String → List (String × Nat)
  | [], cat => [(cat, 1)]
  | (k, v) :: rest, cat =>
    if k = cat then (k, v + 1) :: rest else (k, v) :: bumpCount rest cat

/-- The category-counting loop of URLExtractor.process_source. -/
def countCategories (urls : List Entry) : List (String × Nat) :=
  urls.foldl (fun m t => bumpCount m t.2.2) []

/-- URLExtractor.process_source on already-materialized content. Both
fetch_html_from_url and read_html_file return the empty string on
failure, and the code tests the content only for truthiness, so the
branch taken depends on emptiness of the content alone. -/
def process_source (source : String) (html_content : List Char) : SourceResult :=
  if html_content.isEmpty then
    ⟨source, 0, [], [], some "Failed to retrieve content"⟩
  else
    let urls := extract_urls html_content
    ⟨source, urls.length, urls, countCategories urls, none⟩

/-- The grand total of URLExtractor.print_summary:
sum(r['total_urls'] for r in results). -/
def grandTotal (results : List SourceResult) : Nat :=
  (results.map (fun r => r.total_urls)).sum

/-- The per-source listing printed by URLExtractor.print_summary: one
line per result with its filename and total. -/
def perSourceListing (results : List SourceResult) : List (String × Nat) :=
  results.map (fun r => (r.filename, r.total_urls))

/-- Insert a key into a set-like list when absent: a deterministic
refinement of Python set.update over category keys. -/
def insertKey (acc : List String) (k : String) : List String :=
  if k ∈ acc then acc else acc ++ [k]

/-- The all_categories set of URLExtractor.export_to_excel: the union of
the category_counts keys of every result. -/
def all_categories (results : List SourceResult) : List String :=
  results.foldl (fun acc r => (r.category_counts.map Prod.fst).foldl insertKey acc) []

/-- result.get('category_counts', {}).get(cat, 0). -/
def getCount : List (String × Nat) → String → Nat
  | [], _ => 0
  | (k, v) :: rest, cat => if k = cat then v else getCount rest cat

/-- The category columns of one summary row of
URLExtractor.export_to_excel: one cell per category of the cross-source
vocabulary, zero-filled when the source lacks the category. -/
def summary_row (results : List SourceResult) (r : SourceResult) :
    List (String × Nat) :=
  (all_categories results).map (fun cat => (cat, getCount r.category_counts cat))

/-- A source with 2 Image and 1 Webpage, as in the aggregation example. -/
def resA : SourceResult := ⟨"A", 3, [], [("Image", 2), ("Webpage", 1)], none⟩

/-- A source with 1 Video, as in the aggregation example. -/
def resB : SourceResult := ⟨"B", 1, [], [("Video", 1)], none⟩

example : categorize_url "/img/photo.jpg#frag".data = "Anchor Link" := by decide

example : categorize_url "file.pdf#page=2".data = "Anchor Link" := by decide

example : categorize_url "/img/photo.jpg".data = "Image" := by decide

example : categorize_url "mailto:test@x.com".data = "Email Link" := by decide

example : extract_urls "<a href=\"mailto:test@x.com\">mail</a>".data = [] := by decide

example : extract_urls "<a href=\"https://example.com/a.pdf\">x</a><img src=\"//cdn.example.com/pic.jpg\"><link href=\"/about\">".data =
  [("https://example.com/a.pdf".data, "Complete URL", "Document"),
   ("//cdn.example.com/pic.jpg".data, "Protocol-Relative", "Image"),
   ("/about".data, "Absolute Path", "Webpage")] := by decide

example : absolute_path_matches "<img src=\"//cdn.example.com/pic.jpg\">".data = ["//cdn.example.com/pic.jpg".data] := by decide

example : absolute_path_matches "href = \" /about\"".data = ["/about".data] := by decide

example : absolute_path_matches "href='/a\"".data = ["/a".data] := by decide

example : absolute_path_matches "href=\"/about \"".data = [] := by decide

example : url_with_protocol_matches "HREF=\"HTTP://X\"".data = ["HTTP://X".data] := by decide

example : absolute_path_matches "href=\"/\"".data = [] := by decide

example : extMatchAt image_extensions "a.jpg\n".data = true := by decide

example : extMatchAt image_extensions "a.jpg?x\n".data = true := by decide

example : extMatchAt image_extensions "a.jpg?x\ny".data = false := by decide

/-- A tuple kept by the deduplication loop has a url outside the seen
set the loop started from. -/
theorem mem_dedupKeep_notseen :
    ∀ (seen : List (List Char)) (L : List Entry) (t : Entry),
      t ∈ dedupKeep seen L → t.1 ∉ seen := by
  intro seen L
  induction L generalizing seen with
  | nil => intro t ht; simp [dedupKeep] at ht
  | cons x rest ih =>
    intro t ht
    by_cases hx : x.1 ∈ seen
    · simp only [dedupKeep, if_pos hx] at ht
      exact ih seen t ht
    · simp only [dedupKeep, if_neg hx] at ht
      rcases List.mem_cons.mp ht with rfl | hmem
      · exact hx
      · intro hc
        exact ih (x.1 :: seen) t hmem (List.mem_cons_of_mem _ hc)

/-- The deduplication loop only drops tuples: its output is a sublist of
its input, so the surviving tuples keep their relative order. -/
theorem dedupKeep_sublist :
    ∀ (seen : List (List Char)) (L : List Entry),
      List.Sublist (dedupKeep seen L) L := by
  intro seen L
  induction L generalizing seen with
  | nil => simp [dedupKeep]
  | cons x rest ih =>
    by_cases hx : x.1 ∈ seen
    · simp only [dedupKeep, if_pos hx]
      exact List.Sublist.cons x (ih seen)
    · simp only [dedupKeep, if_neg hx]
      exact List.Sublist.cons₂ x (ih (x.1 :: seen))

/-- The urls of the deduplicated list are pairwise distinct. -/
theorem dedupKeep_pairwise :
    ∀ (seen : List (List Char)) (L : List Entry),
      (dedupKeep seen L).Pairwise (fun a b => a.1 ≠ b.1) := by
  intro seen L
  induction L generalizing seen with
  | nil => simp [dedupKeep]
  | cons x rest ih =>
    by_cases hx : x.1 ∈ seen
    · simpa only [dedupKeep, if_pos hx] using ih seen
    · simp only [dedupKeep, if_neg hx]
      refine List.Pairwise.cons ?_ (ih (x.1 :: seen))
      intro b hb heq
      exact mem_dedupKeep_notseen _ _ _ hb (List.mem_cons.mpr (Or.inl heq.symm))

/-- No url is lost by the deduplication loop: every input tuple has a
surviving tuple with the same url. -/
theorem dedupKeep_complete :
    ∀ (seen : List (List Char)) (L : List Entry) (t : Entry),
      t ∈ L → t.1 ∉ seen → ∃ u, u ∈ dedupKeep seen L ∧ u.1 = t.1 := by
  intro seen L
  induction L generalizing seen with
  | nil => intro t ht _; exact absurd ht (List.not_mem_nil t)
  | cons x rest ih =>
    intro t ht hseen
    by_cases hx : x.1 ∈ seen
    · rcases List.mem_cons.mp ht with rfl | hmem
      · exact absurd hx hseen
      · rcases ih seen t hmem hseen with ⟨u, hu, hk⟩
        refine ⟨u, ?_, hk⟩
        simpa only [dedupKeep, if_pos hx] using hu
    · have hrw : dedupKeep seen (x :: rest) = x :: dedupKeep (x.1 :: seen) rest := by
        simp only [dedupKeep, if_neg hx]
      rcases List.mem_cons.mp ht with rfl | hmem
      · exact ⟨t, by rw [hrw]; exact List.mem_cons_self _ _, rfl⟩
      · by_cases he : t.1 = x.1
        · exact ⟨x, by rw [hrw]; exact List.mem_cons_self _ _, he.symm⟩
        · have hseen2 : t.1 ∉ x.1 :: seen := by
            intro hc
            rcases List.mem_cons.mp hc with h1 | h1
            · exact he h1
            · exact hseen h1
          rcases ih (x.1 :: seen) t hmem hseen2 with ⟨u, hu, hk⟩
          exact ⟨u, by rw [hrw]; exact List.mem_cons_of_mem _ hu, hk⟩

/-- Every surviving tuple is the first input tuple carrying its url, so
the kept kind and category are those of the first occurrence. -/
theorem dedupKeep_first :
    ∀ (seen : List (List Char)) (L : List Entry) (t : Entry),
      t ∈ dedupKeep seen L → firstWith L t.1 = some t := by
  intro seen L
  induction L generalizing seen with
  | nil => intro t ht; simp [dedupKeep] at ht
  | cons x rest ih =>
    intro t ht
    by_cases hx : x.1 ∈ seen
    · have ht2 : t ∈ dedupKeep seen rest := by
        simpa only [dedupKeep, if_pos hx] using ht
      have hne : x.1 ≠ t.1 := by
        intro he
        exact mem_dedupKeep_notseen seen rest t ht2 (he ▸ hx)
      simp only [firstWith, if_neg hne]
      exact ih seen t ht2
    · have hrw : dedupKeep seen (x :: rest) = x :: dedupKeep (x.1 :: seen) rest := by
        simp only [dedupKeep, if_neg hx]
      rw [hrw] at ht
      rcases List.mem_cons.mp ht with rfl | hmem
      · simp [firstWith]
      · have hnotin := mem_dedupKeep_notseen (x.1 :: seen) rest t hmem
        have hne : x.1 ≠ t.1 := by
          intro he
          exact hnotin (List.mem_cons.mpr (Or.inl he.symm))
        simp only [firstWith, if_neg hne]
        exact ih (x.1 :: seen) t hmem

/-- In a list whose urls are pairwise distinct, two members with the
same url are the same tuple. -/
theorem pairwise_key_inj :
    ∀ {l : List Entry}, l.Pairwise (fun a b => a.1 ≠ b.1) →
      ∀ t u, t ∈ l → u ∈ l → t.1 = u.1 → t = u := by
  intro l hp
  induction hp with
  | nil => intro t u ht _ _; exact absurd ht (List.not_mem_nil t)
  | @cons x rest hhead _htail ih =>
    intro t u ht hu he
    rcases List.mem_cons.mp ht with rfl | ht2
    · rcases List.mem_cons.mp hu with rfl | hu2
      · rfl
      · exact absurd he (hhead u hu2)
    · rcases List.mem_cons.mp hu with rfl | hu2
      · exact absurd he.symm (hhead t ht2)
      · exact ih t u ht2 hu2 he

/-- Membership after one set-like insertion. -/
theorem mem_insertKey (acc : List String) (k c : String) :
    c ∈ insertKey acc k ↔ c ∈ acc ∨ c = k := by
  by_cases hk : k ∈ acc
  · simp only [insertKey, if_pos hk]
    constructor
    · exact Or.inl
    · rintro (h | rfl)
      · exact h
      · exact hk
  · simp [insertKey, hk]

/-- Membership after folding a key list into a set-like list. -/
theorem foldl_insertKey_mem :
    ∀ (ks acc : List String) (c : String),
      c ∈ ks.foldl insertKey acc ↔ c ∈ acc ∨ c ∈ ks := by
  intro ks
  induction ks with
  | nil => intro acc c; simp
  | cons k ks ih =>
    intro acc c
    rw [List.foldl_cons, ih, mem_insertKey]
    simp only [List.mem_cons]
    tauto

/-- Membership in the fold building the cross-source vocabulary. -/
theorem foldl_catstep_mem :
    ∀ (results : List SourceResult) (acc : List String) (c : String),
      c ∈ results.foldl
          (fun acc r => (r.category_counts.map Prod.fst).foldl insertKey acc) acc ↔
        c ∈ acc ∨ ∃ r, r ∈ results ∧ c ∈ r.category_counts.map Prod.fst := by
  intro results
  induction results with
  | nil => intro acc c; simp
  | cons r rs ih =>
    intro acc c
    rw [List.foldl_cons, ih, foldl_insertKey_mem]
    constructor
    · rintro ((h | h) | ⟨r2, h2, h3⟩)
      · exact Or.inl h
      · exact Or.inr ⟨r, List.mem_cons_self _ _, h⟩
      · exact Or.inr ⟨r2, List.mem_cons_of_mem _ h2, h3⟩
    · rintro (h | ⟨r2, h2, h3⟩)
      · exact Or.inl (Or.inl h)
      · rcases List.mem_cons.mp h2 with rfl | h4
        · exact Or.inl (Or.inr h3)
        · exact Or.inr ⟨r2, h4, h3⟩

/-- The cross-source vocabulary is exactly the union of the category
keys of the results. -/
theorem mem_all_categories (results : List SourceResult) (c : String) :
    c ∈ all_categories results ↔
      ∃ r, r ∈ results ∧ c ∈ r.category_counts.map Prod.fst := by
  unfold all_categories
  rw [foldl_catstep_mem]
  simp

/-- dict.get returns the default 0 when no pair carries the key. -/
theorem getCount_eq_zero :
    ∀ (m : List (String × Nat)) (c : String),
      (∀ p, p ∈ m → p.1 ≠ c) → getCount m c = 0 := by
  intro m
  induction m with
  | nil => intro c _; rfl
  | cons p rest ih =>
    intro c h
    obtain ⟨k, v⟩ := p
    have hne : k ≠ c := h (k, v) (List.mem_cons_self _ _)
    simp only [getCount, if_neg hne]
    exact ih c (fun q hq => h q (List.mem_cons_of_mem _ hq))

/-- Consuming a literal never lengthens the input. -/
theorem stripCI_length :
    ∀ (lit l rest : List Char), stripCI lit l = some rest →
      rest.length ≤ l.length := by
  intro lit
  induction lit with
  | nil =>
    intro l rest h
    simp only [stripCI, Option.some.injEq] at h
    subst h
    exact Nat.le_refl _
  | cons c cs ih =>
    intro l rest h
    cases l with
    | nil => simp [stripCI] at h
    | cons r rs =>
      simp only [stripCI] at h
      split at h
      · exact Nat.le_succ_of_le (ih rs rest h)
      · simp at h

/-- Consuming a literal with capture never lengthens the input. -/
theorem stripCIK_length :
    ∀ (lit l k rest : List Char), stripCIK lit l = some (k, rest) →
      rest.length ≤ l.length := by
  intro lit
  induction lit with
  | nil =>
    intro l k rest h
    simp only [stripCIK, Option.some.injEq, Prod.mk.injEq] at h
    obtain ⟨h1, h2⟩ := h
    subst h2
    exact Nat.le_refl _
  | cons c cs ih =>
    intro l k rest h
    cases l with
    | nil => simp [stripCIK] at h
    | cons r rs =>
      simp only [stripCIK] at h
      split at h
      · cases hm : stripCIK cs rs with
        | none => rw [hm] at h; simp at h
        | some p =>
          obtain ⟨k2, rest2⟩ := p
          rw [hm] at h
          simp only [Option.some.injEq, Prod.mk.injEq] at h
          rw [← h.2]
          exact Nat.le_succ_of_le (ih rs k2 rest2 hm)
      · simp at h

/-- The = step consumes one character. -/
theorem expectEq_length (l rest : List Char) (h : expectEq l = some rest) :
    rest.length < l.length := by
  cases l with
  | nil => simp [expectEq] at h
  | cons c r =>
    simp only [expectEq] at h
    split at h
    · simp only [Option.some.injEq] at h
      subst h
      exact Nat.lt_succ_self _
    · simp at h

/-- The quote steps consume one character. -/
theorem expectQuote_length (l rest : List Char) (h : expectQuote l = some rest) :
    rest.length < l.length := by
  cases l with
  | nil => simp [expectQuote] at h
  | cons c r =>
    simp only [expectQuote] at h
    split at h
    · simp only [Option.some.injEq] at h
      subst h
      exact Nat.lt_succ_self _
    · simp at h

/-- The \s* steps never lengthen the input. -/
theorem dropWs_length (l : List Char) : (dropWs l).length ≤ l.length :=
  (List.dropWhile_sublist isSpaceChar).length_le

/-- The attribute-name alternation never lengthens the input. -/
theorem matchAttrName_length (l rest : List Char)
    (h : matchAttrName l = some rest) : rest.length ≤ l.length := by
  unfold matchAttrName at h
  cases hm : stripCI hrefChars l with
  | some r1 =>
    rw [hm, Option.some.injEq] at h
    subst h
    exact stripCI_length _ _ _ hm
  | none =>
    rw [hm] at h
    exact stripCI_length _ _ _ h

/-- The scheme prefix never lengthens the input. -/
theorem matchScheme_length (l k rest : List Char)
    (h : matchScheme l = some (k, rest)) : rest.length ≤ l.length := by
  unfold matchScheme at h
  cases hm : stripCIK httpChars l with
  | some p =>
    obtain ⟨k1, r1⟩ := p
    have hr1 : r1.length ≤ l.length := stripCIK_length _ _ _ _ hm
    cases r1 with
    | nil => simp [hm] at h
    | cons c r2 =>
      simp only [hm] at h
      rw [List.length_cons] at hr1
      by_cases hs : c.toLower = 's'
      · rw [if_pos hs] at h
        cases hm2 : stripCIK sepChars r2 with
        | none => simp [hm2] at h
        | some p2 =>
          obtain ⟨k2, r3⟩ := p2
          simp only [hm2, Option.some.injEq, Prod.mk.injEq] at h
          have h3 : r3.length ≤ r2.length := stripCIK_length _ _ _ _ hm2
          rw [← h.2]
          omega
      · rw [if_neg hs] at h
        cases hm2 : stripCIK sepChars (c :: r2) with
        | none => simp [hm2] at h
        | some p2 =>
          obtain ⟨k2, r3⟩ := p2
          simp only [hm2, Option.some.injEq, Prod.mk.injEq] at h
          have h3 : r3.length ≤ (c :: r2).length := stripCIK_length _ _ _ _ hm2
          rw [List.length_cons] at h3
          rw [← h.2]
          omega
  | none =>
    simp only [hm] at h
    cases hm2 : stripCIK ftpChars l with
    | none => simp [hm2] at h
    | some p2 =>
      obtain ⟨k1, r1⟩ := p2
      simp only [hm2] at h
      cases hm3 : stripCIK sepChars r1 with
      | none => simp [hm3] at h
      | some p3 =>
        obtain ⟨k2, r3⟩ := p3
        simp only [hm3, Option.some.injEq, Prod.mk.injEq] at h
        have h1 : r1.length ≤ l.length := stripCIK_length _ _ _ _ hm2
        have h2 : r3.length ≤ r1.length := stripCIK_length _ _ _ _ hm3
        rw [← h.2]
        omega

/-- The // prefix never lengthens the input. -/
theorem matchRel_length (l k rest : List Char)
    (h : matchRel l = some (k, rest)) : rest.length ≤ l.length :=
  stripCIK_length _ _ _ _ h

/-- The / prefix never lengthens the input. -/
theorem matchSlash_length (l k rest : List Char)
    (h : matchSlash l = some (k, rest)) : rest.length ≤ l.length :=
  stripCIK_length _ _ _ _ h

/-- A successful shell match strictly consumes input (at least the
closing quote), so the scan always advances. -/
theorem matchShellAt_length (pfx : List Char → Option (List Char × List Char))
    (hp : ∀ l k rest, pfx l = some (k, rest) → rest.length ≤ l.length) :
    ∀ (l cap after : List Char), matchShellAt pfx l = some (cap, after) →
      after.length < l.length := by
  intro l cap after h
  unfold matchShellAt at h
  rw [Option.bind_eq_some] at h
  obtain ⟨r1, hA, h⟩ := h
  rw [Option.bind_eq_some] at h
  obtain ⟨r2, hE, h⟩ := h
  rw [Option.bind_eq_some] at h
  obtain ⟨r3, hQ, h⟩ := h
  rw [Option.bind_eq_some] at h
  obtain ⟨p, hP, h⟩ := h
  simp only at h
  split at h
  · simp at h
  · rw [Option.bind_eq_some] at h
    obtain ⟨r7, hQ2, h⟩ := h
    simp only [Option.some.injEq, Prod.mk.injEq] at h
    have hafter : after = r7 := h.2.symm
    subst hafter
    have l1 : r1.length ≤ l.length := matchAttrName_length l r1 hA
    have l2 : r2.length < (dropWs r1).length := expectEq_length _ _ hE
    have l2b : (dropWs r1).length ≤ r1.length := dropWs_length r1
    have l3 : r3.length < (dropWs r2).length := expectQuote_length _ _ hQ
    have l3b : (dropWs r2).length ≤ r2.length := dropWs_length r2
    have l4 : p.2.length ≤ (dropWs r3).length := hp _ _ _ hP
    have l4b : (dropWs r3).length ≤ r3.length := dropWs_length r3
    have l5 : (p.2.dropWhile isRunChar).length ≤ p.2.length :=
      (List.dropWhile_sublist isRunChar).length_le
    have l6 : after.length < (p.2.dropWhile isRunChar).length :=
      expectQuote_length _ _ hQ2
    omega

/-- With at least as much fuel as input, the scan result does not
depend on the fuel, provided every match strictly consumes input. -/
theorem finditerAux_fuel (m : List Char → Option (List Char × List Char))
    (hm : ∀ l cap after, m l = some (cap, after) → after.length < l.length) :
    ∀ (fuel1 fuel2 : Nat) (l : List Char), l.length ≤ fuel1 → l.length ≤ fuel2 →
      finditerAux m fuel1 l = finditerAux m fuel2 l := by
  intro fuel1
  induction fuel1 with
  | zero =>
    intro fuel2 l h1 _
    have : l = [] := List.length_eq_zero.mp (Nat.le_zero.mp h1)
    subst this
    cases fuel2 <;> rfl
  | succ f ih =>
    intro fuel2 l h1 h2
    cases l with
    | nil => cases fuel2 <;> rfl
    | cons c rest =>
      cases fuel2 with
      | zero => simp at h2
      | succ f2 =>
        rw [List.length_cons] at h1 h2
        cases hm2 : m (c :: rest) with
        | none =>
          simp only [finditerAux, hm2]
          exact ih f2 rest (by omega) (by omega)
        | some p =>
          obtain ⟨cap, after⟩ := p
          have hlt := hm _ _ _ hm2
          rw [List.length_cons] at hlt
          simp only [finditerAux, hm2]
          rw [ih f2 after (by omega) (by omega)]

/-- The scan satisfies the natural unfolding of re.finditer: at a
nonempty input, a match is emitted and the scan resumes after it,
otherwise the scan moves one character to the right. The fuel of the
implementation is therefore invisible. -/
theorem finditer_adequate (m : List Char → Option (List Char × List Char))
    (hm : ∀ l cap after, m l = some (cap, after) → after.length < l.length)
    (c : Char) (rest : List Char) :
    finditer m (c :: rest) =
      (match m (c :: rest) with
       | some (cap, after) => cap :: finditer m after
       | none => finditer m rest) := by
  unfold finditer
  cases hm2 : m (c :: rest) with
  | none => simp only [List.length_cons, finditerAux, hm2]
  | some p =>
    obtain ⟨cap, after⟩ := p
    have hlt := hm _ _ _ hm2
    rw [List.length_cons] at hlt
    simp only [List.length_cons, finditerAux, hm2]
    rw [finditerAux_fuel m hm rest.length after.length after (by omega) (by omega)]

/-- C1 counterexample: the claim says categorize returns Image for the
reference string "/img/photo.jpg#frag"; the code returns Anchor Link,
because the image-extension pattern requires the extension at the end of
the string (up to a ?query) and here a #fragment follows it. -/
theorem c1_counterexample :
    categorize_url "/img/photo.jpg#frag".data = "Anchor Link" ∧
    categorize_url "/img/photo.jpg#frag".data ≠ "Image" := by
  decide

/-- C1 (amended): categorize applies extension rules before the
special-scheme rules, but each extension rule matches only at the end of
the string, optionally followed by a ?query; so "/img/photo.jpg#frag"
and "file.pdf#page=2" match no extension rule and return Anchor Link,
while "/img/photo.jpg" returns Image, "file.pdf" returns Document, and
when an extension does match despite a '#' (inside a query, as in
"/img/photo.jpg?a#b") the extension check wins over the anchor check. -/
theorem c1_amended :
    categorize_url "/img/photo.jpg#frag".data = "Anchor Link" ∧
    categorize_url "file.pdf#page=2".data = "Anchor Link" ∧
    categorize_url "/img/photo.jpg".data = "Image" ∧
    categorize_url "file.pdf".data = "Document" ∧
    categorize_url "/img/photo.jpg?a#b".data = "Image" := by
  decide

/-- C2: the three-tag content yields exactly the three references
(https://example.com/a.pdf, Complete URL, Document),
(//cdn.example.com/pic.jpg, Protocol-Relative, Image) and
(/about, Absolute Path, Webpage), in this order. -/
theorem c2_scenario :
    extract_urls "<a href=\"https://example.com/a.pdf\">x</a><img src=\"//cdn.example.com/pic.jpg\"><link href=\"/about\">".data =
      [("https://example.com/a.pdf".data, "Complete URL", "Document"),
       ("//cdn.example.com/pic.jpg".data, "Protocol-Relative", "Image"),
       ("/about".data, "Absolute Path", "Webpage")] := by
  decide

/-- C3 counterexample: the claim says the mailto content yields exactly
one reference; the code yields none, since mailto: values match none of
the three reference-syntax patterns. -/
theorem c3_counterexample :
    extract_urls "<a href=\"mailto:test@x.com\">mail</a>".data = [] ∧
    (extract_urls "<a href=\"mailto:test@x.com\">mail</a>".data).length ≠ 1 := by
  decide

/-- C3 (amended): the content <a href="mailto:test@x.com">mail</a>
yields no reference at all, because the three reference-syntax rules
require the attribute value to begin with an http/https/ftp scheme,
with //, or with /, which mailto: does not; the categorizer itself would
map the string mailto:test@x.com to Email Link, but it is never
reached. -/
theorem c3_amended :
    extract_urls "<a href=\"mailto:test@x.com\">mail</a>".data = [] ∧
    categorize_url "mailto:test@x.com".data = "Email Link" := by
  decide

/-- C4: for every content string the extracted sequence has pairwise
distinct raw reference strings, is a sublist of the concatenation of the
three passes (Complete URL, then Protocol-Relative, then Absolute Path,
each in scan order), loses no raw string of that concatenation, and
every kept tuple is the first tuple of the concatenation carrying its
raw string (so the kind and category of the first occurrence are the
ones kept). -/
theorem c4_dedup_unique (content : List Char) :
    (extract_urls content).Pairwise (fun a b => a.1 ≠ b.1) ∧
    List.Sublist (extract_urls content) (allMatches content) ∧
    (∀ t, t ∈ allMatches content → ∃ u, u ∈ extract_urls content ∧ u.1 = t.1) ∧
    (∀ t, t ∈ extract_urls content → firstWith (allMatches content) t.1 = some t) := by
  refine ⟨dedupKeep_pairwise [] _, dedupKeep_sublist [] _, ?_, ?_⟩
  · intro t ht
    exact dedupKeep_complete [] _ t ht (List.not_mem_nil _)
  · intro t ht
    exact dedupKeep_first [] _ t ht

/-- Witness for C4 at a content with a duplicated absolute path. -/
theorem c4_witness :
    ∃ u, u ∈ extract_urls "<a href=\"/a\">1</a><a href=\"/a\">2</a>".data ∧
      u.1 = "/a".data :=
  (c4_dedup_unique "<a href=\"/a\">1</a><a href=\"/a\">2</a>".data).2.2.1
    ("/a".data, "Absolute Path", "Webpage") (by decide)

/-- C5: for every content string, every emitted tuple whose kind is
Absolute Path has a raw string that starts with none of http://,
https://, ftp://, //; and no raw string is emitted under two different
kinds (two emitted tuples with the same raw string are equal). -/
theorem c5_absolute_path_guard (content : List Char) :
    (∀ t, t ∈ extract_urls content → t.2.1 = "Absolute Path" →
      schemeOrRel t.1 = false) ∧
    (∀ t u, t ∈ extract_urls content → u ∈ extract_urls content →
      t.1 = u.1 → t = u) := by
  constructor
  · intro t ht hk
    have hmem : t ∈ allMatches content :=
      (dedupKeep_sublist [] (allMatches content)).subset ht
    unfold allMatches at hmem
    rcases List.mem_append.mp hmem with h12 | h3
    · rcases List.mem_append.mp h12 with h1 | h2
      · obtain ⟨u, hu, he⟩ := List.mem_map.mp h1
        rw [← he] at hk
        have hk2 : ("Complete URL" : String) = "Absolute Path" := hk
        exact absurd hk2 (by decide)
      · obtain ⟨u, hu, he⟩ := List.mem_map.mp h2
        rw [← he] at hk
        have hk2 : ("Protocol-Relative" : String) = "Absolute Path" := hk
        exact absurd hk2 (by decide)
    · obtain ⟨u, hu, he⟩ := List.mem_map.mp h3
      have hf := (List.mem_filter.mp hu).2
      rw [← he]
      simpa using hf
  · intro t u ht hu he
    exact pairwise_key_inj (dedupKeep_pairwise [] _) t u ht hu he

/-- Witness for C5 at a content whose absolute-path pass sees both a
protocol-relative string (discarded) and a genuine absolute path. -/
theorem c5_witness :
    schemeOrRel "/y".data = false :=
  (c5_absolute_path_guard "<a href=\"//x/y\"></a><a href=\"/y\"></a>".data).1
    ("/y".data, "Absolute Path", "Webpage") (by decide) rfl

/-- C6: categorize is total and deterministic (it is a function into the
ten category strings), and when no extension rule matches and the string
has no '#', no mailto: and no tel:, the result is the Webpage
fallback. -/
theorem c6_categorize_total (url : List Char) :
    categorize_url url ∈
      ["Image", "Video", "Audio", "Document", "Script/Style", "Archive",
       "Anchor Link", "Email Link", "Phone Link", "Webpage"] ∧
    (extMatchAt image_extensions url = false →
     extMatchAt video_extensions url = false →
     extMatchAt audio_extensions url = false →
     extMatchAt document_extensions url = false →
     extMatchAt script_extensions url = false →
     extMatchAt archive_extensions url = false →
     hasHash url = false →
     containsCI mailtoChars url = false →
     containsCI telChars url = false →
     categorize_url url = "Webpage") := by
  constructor
  · unfold categorize_url
    repeat' split
    all_goals decide
  · intro h1 h2 h3 h4 h5 h6 h7 h8 h9
    simp [categorize_url, h1, h2, h3, h4, h5, h6, h7, h8, h9]

/-- Witness for C6 at a string matching no rule. -/
theorem c6_witness :
    categorize_url "abc".data = "Webpage" :=
  (c6_categorize_total "abc".data).2 (by decide) (by decide) (by decide)
    (by decide) (by decide) (by decide) (by decide) (by decide) (by decide)

/-- C7: when content could not be obtained (the fetchers return the
empty string), process_source yields a result with total 0, empty
reference sequence, empty category counts and a non-null failure
reason; appending it to any result list leaves the grand total
unchanged and it still appears in the per-source listing. -/
theorem c7_failure_record (s : String) (results : List SourceResult) :
    (process_source s []).total_urls = 0 ∧
    (process_source s []).urls = [] ∧
    (process_source s []).category_counts = [] ∧
    (process_source s []).error = some "Failed to retrieve content" ∧
    grandTotal (results ++ [process_source s []]) = grandTotal results ∧
    (s, 0) ∈ perSourceListing (results ++ [process_source s []]) := by
  refine ⟨rfl, rfl, rfl, rfl, ?_, ?_⟩
  · simp [grandTotal, process_source]
  · unfold perSourceListing
    rw [List.map_append]
    refine List.mem_append.mpr (Or.inr ?_)
    simp [process_source]

/-- C8: the cross-source vocabulary is exactly the set union of the
category keys of all sources; a source lacking a vocabulary category
gets an explicit (category, 0) cell in its summary row; and on the
example sources A (2 Image, 1 Webpage) and B (1 Video) the vocabulary is
exactly the set of Image, Webpage and Video, and the row of A reports
Video = 0. -/
theorem c8_vocabulary :
    (∀ (results : List SourceResult) (c : String),
        c ∈ all_categories results ↔
          ∃ r, r ∈ results ∧ c ∈ r.category_counts.map Prod.fst) ∧
    (∀ (results : List SourceResult) (r : SourceResult) (c : String),
        c ∈ all_categories results → (∀ p, p ∈ r.category_counts → p.1 ≠ c) →
          (c, 0) ∈ summary_row results r) ∧
    (∀ c, c ∈ all_categories [resA, resB] ↔
        (c = "Image" ∨ c = "Webpage" ∨ c = "Video")) ∧
    ("Video", 0) ∈ summary_row [resA, resB] resA := by
  refine ⟨mem_all_categories, ?_, ?_, ?_⟩
  · intro results r c hc hnone
    unfold summary_row
    refine List.mem_map.mpr ⟨c, hc, ?_⟩
    rw [getCount_eq_zero r.category_counts c hnone]
  · intro c
    have hv : all_categories [resA, resB] = ["Image", "Webpage", "Video"] := by
      decide
    rw [hv]
    simp
  · decide

/-- Witness for C8 on a permuted source list. -/
theorem c8_witness :
    ("Video", 0) ∈ summary_row [resB, resA] resA :=
  c8_vocabulary.2.1 [resB, resA] resA "Video" (by decide) (by decide)

/-- C9: extract is a total deterministic function of the content string;
the empty content and a content with only malformed attribute syntax
yield the empty sequence, and equal contents yield equal ordered
output. -/
theorem c9_extract_total :
    extract_urls "".data = [] ∧
    extract_urls "<a href=\"broken>".data = [] ∧
    ∀ content : List Char, extract_urls content = extract_urls content := by
  exact ⟨by decide, by decide, fun _ => rfl⟩

/-- C10: process_source tests only the truthiness of the obtained
content, so empty content — whatever the reason — produces the failure
record with error "Failed to retrieve content", while any nonempty
content (here one with zero matches) produces a success record with
error none. -/
theorem c10_empty_content_conflation (s : String) :
    process_source s [] =
      ⟨s, 0, [], [], some "Failed to retrieve content"⟩ ∧
    process_source s "x".data = ⟨s, 0, [], [], none⟩ := by
  exact ⟨rfl, rfl⟩

/-- The complete-URL pass satisfies the natural finditer unfolding: the
fuel of the implementation never cuts the scan short. -/
theorem url_with_protocol_matches_adequate (c : Char) (rest : List Char) :
    url_with_protocol_matches (c :: rest) =
      (match matchShellAt matchScheme (c :: rest) with
       | some (cap, after) => cap :: url_with_protocol_matches after
       | none => url_with_protocol_matches rest) :=
  finditer_adequate _ (matchShellAt_length matchScheme matchScheme_length) c rest

/-- The protocol-relative pass satisfies the natural finditer
unfolding. -/
theorem protocol_relative_matches_adequate (c : Char) (rest : List Char) :
    protocol_relative_matches (c :: rest) =
      (match matchShellAt matchRel (c :: rest) with
       | some (cap, after) => cap :: protocol_relative_matches after
       | none => protocol_relative_matches rest) :=
  finditer_adequate _ (matchShellAt_length matchRel matchRel_length) c rest

/-- The absolute-path pass satisfies the natural finditer unfolding. -/
theorem absolute_path_matches_adequate (c : Char) (rest : List Char) :
    absolute_path_matches (c :: rest) =
      (match matchShellAt matchSlash (c :: rest) with
       | some (cap, after) => cap :: absolute_path_matches after
       | none => absolute_path_matches rest) :=
  finditer_adequate _ (matchShellAt_length matchSlash matchSlash_length) c rest
